import Mathlib

set_option maxHeartbeats 1600000

/-!
Shallow embedding of the event-resolution and playlist-assembly core of the
Concerts-me repository (src/setlistfm_api.py, src/playlist_builder.py,
src/setlistfm.py, src/utils/fuzzy_utils.py), together with theorems settling
the specification claims about it.

Conventions used throughout the embedding:
- Python strings are Lean `String`; a Python value that may be `None` or a
  string is `Option String`, and the pervasive Python truthiness test
  (`None` and `""` both falsy) is modelled by the helper `truthyOpt`.
- Python `str | None` parameters that are only ever used behind truthiness
  checks (the `venue` / `city` query hints) are modelled as `String`, with
  `""` standing for `None`; the two are indistinguishable in all uses that
  the embedded code makes of them.
- Network traffic is abstracted: each `requests.get` call site receives its
  response as an explicit argument (`NetResult`), either a transport
  exception or an HTTP status plus decoded body.  The embedded
  `findEventSetlist` additionally returns the number of HTTP requests it
  issued, so retry behaviour is observable.
- The external fuzzy-scoring libraries (rapidfuzz / fuzzywuzzy) are not part
  of the repository; functions of the embedding that consume a score take it
  as an explicit argument `score : String → String → Nat` (0..100 scale).
-/

/-- Python truthiness on an optional string: `None` and `""` are falsy.
`truthyOpt o` is `some s` exactly when `o` holds a non-empty string. -/
def truthyOpt : Option String → Option String
  | some s => if s = "" then none else some s
  | none => none

/-- Python `a or b` on strings (with `None` modelled as `""`). -/
def orStr (a b : String) : String :=
  if a = "" then b else a

/-!
Python's string primitives (`lower`, `strip`, `split`, `int(...)`,
`startswith`, lexicographic `<`) are re-implemented structurally over the
character list of a `String`, mirroring their Python semantics on the data
actually exercised (code-point comparisons, single-character separators;
Python's `lower`/`isalnum` are Unicode-aware where `Char.toLower` /
`Char.isAlphanum` cover the ranges occurring here).
-/

/-- Python `s.lower()`. -/
def strLower (s : String) : String :=
  String.mk (s.data.map Char.toLower)

/-- Python `s.strip()`: drop whitespace from both ends. -/
def strTrim (s : String) : String :=
  String.mk
    ((((s.data.dropWhile Char.isWhitespace).reverse).dropWhile
      Char.isWhitespace).reverse)

/-- Python `s.startswith(p)`. -/
def strStartsWith (s p : String) : Bool :=
  p.data.isPrefixOf s.data

/-- Python `s.split(sep)` for a character separator (also the behaviour of
`str.split(None)`-style whitespace splitting when `sep` is a predicate):
splits at every separator, keeping empty pieces. -/
def splitOnChar (sep : Char → Bool) : List Char → List (List Char)
  | [] => [[]]
  | c :: cs =>
    if sep c then [] :: splitOnChar sep cs
    else
      match splitOnChar sep cs with
      | [] => [[c]]
      | p :: ps => (c :: p) :: ps

/-- The numeric value of a non-empty all-digit character list. -/
def natOfDigits : List Char → Option Nat
  | [] => none
  | ds =>
    if ds.all Char.isDigit then
      some (ds.foldl (fun n c => 10 * n + (c.toNat - '0'.toNat)) 0)
    else none

/-- Python `int(p)` on a string: surrounding whitespace allowed, optional
sign, at least one digit (digit-group underscores are not modelled). -/
def parseIntChars (l : List Char) : Option Int :=
  match (strTrim (String.mk l)).data with
  | '-' :: ds => (natOfDigits ds).map (fun n => -(n : Int))
  | '+' :: ds => (natOfDigits ds).map (fun n => (n : Int))
  | ds => (natOfDigits ds).map (fun n => (n : Int))

/-- Embeds `_norm_text` of src/setlistfm_api.py: lower-case, strip characters
that are neither alphanumeric nor whitespace, and trim. -/
def normText (s : String) : String :=
  strTrim (String.mk (((strTrim (strLower s)).data).filter
    (fun c => c.isAlphanum || c.isWhitespace)))

/-- Embeds `_to_setlistfm_date`: reformat `YYYY-MM-DD` to `DD-MM-YYYY`.
Python parses with `datetime.fromisoformat` and re-renders; on a well-formed
ISO date that is exactly a swap of the components.  (On a malformed date the
Python raises; the embedding returns `""`, a value no `eventDate` of a
well-formed response equals.) -/
def toSetlistfmDate (iso : String) : String :=
  match splitOnChar (fun c => c = '-') iso.data with
  | [y, m, d] => String.mk (d ++ '-' :: m ++ '-' :: y)
  | _ => ""

/-- Embeds `_parse_time_or_none` (identical copies in src/setlistfm_api.py and
src/playlist_builder.py): split on `:`, parse every part as an integer, pad
with zeros to three components and keep the first three.  Any unparsable part
(or an absent/empty input) yields `none`. -/
def parseTimeOrNone (t : Option String) : Option (Int × Int × Int) :=
  match truthyOpt t with
  | none => none
  | some s =>
    match (splitOnChar (fun c => c = ':') s.data).mapM parseIntChars with
    | none => none
    | some ps =>
      match ps with
      | [] => some (0, 0, 0)
      | [a] => some (a, 0, 0)
      | [a, b] => some (a, b, 0)
      | a :: b :: c :: _ => some (a, b, c)

/-- One `set` block of a raw setlist entry: its ordered song names and its
optional `startTime`/`start` field (the two JSON spellings are collapsed into
one optional field, as the Python reads them with `or`). -/
structure SetBlock where
  song : List String
  startTime : Option String
deriving DecidableEq, Repr

/-- One raw setlist record as consumed by `find_event_setlist`.  Fields that
the Python reads through nested `.get` chains with string defaults are plain
`String`s (`""` = missing); `startTimeTop` collapses the top-level
`startTime`/`start` pair and `lastUpdated` the `lastUpdated`/`lastUpdatedAt`
pair, as the Python reads each with `or`. -/
structure Entry where
  artistName : String
  eventDate : String
  eventType : String
  venueName : String
  cityName : String
  sets : List SetBlock
  startTimeTop : Option String
  lastUpdated : Option String
deriving DecidableEq, Repr

/-- Embeds `SetlistFM._extract_songs`: concatenate the blocks' song lists,
keeping only truthy names (the Python appends `s.get("name")` only `if name`). -/
def extractSongs (e : Entry) : List String :=
  e.sets.flatMap (fun b => b.song.filter (fun s => s ≠ ""))

/-- First truthy `startTime` among an entry's set blocks (the scanning loop at
the top of `_gather_basic_entry` and in the openers aggregation). -/
def firstSetStart (e : Entry) : Option String :=
  e.sets.findSome? (fun b => truthyOpt b.startTime)

/-- A normalized lineup slot as produced by `_gather_basic_entry`
(`{name, songs, startTime, stage, lastUpdated}`; the `stage` and `_raw`
fields are carried by the Python dict but never read downstream and are
omitted). -/
structure BasicEntry where
  name : String
  songs : List String
  startTime : Option String
  lastUpdated : Option String
deriving DecidableEq, Repr

/-- Embeds `SetlistFM._gather_basic_entry`. -/
def gatherBasicEntry (e : Entry) : BasicEntry :=
  { name := e.artistName
    songs := extractSongs e
    startTime := (firstSetStart e).or (truthyOpt e.startTimeTop)
    lastUpdated := truthyOpt e.lastUpdated }

/-!
Python's built-in `sorted` is a stable sort by key.  The embedding uses an
insertion sort that places each successive element after every
already-inserted element whose key is `≤` its own, which reproduces Python's
semantics: ascending in the key, equal keys in input order.  Descending
Python sorts (`reverse=True`) are obtained by sorting into the order dual.
-/

/-- Insert `x` into `l` after every element whose key is `≤ key x`. -/
def insSorted {α : Type} {κ : Type} [LinearOrder κ] (key : α → κ) (x : α) :
    List α → List α
  | [] => [x]
  | y :: ys => if key y ≤ key x then y :: insSorted key x ys else x :: y :: ys

/-- Stable sort by key, ascending (Python `sorted(l, key=key)`). -/
def sortedBy {α : Type} {κ : Type} [LinearOrder κ] (key : α → κ)
    (l : List α) : List α :=
  l.foldl (fun acc x => insSorted key x acc) []

/-!
Both festival-lineup deduplication and playlist id deduplication in the
source are "seen-set" loops that keep the first occurrence of each key.
`dedupKeyLoop` is the loop itself (with its `seen`/`out` accumulators and an
optional skip predicate for records the loop `continue`s over);
`firstDedupBy` is an accumulator-free recursive characterization used to
state and prove its properties.
-/

/-- Keep the first element for each key, dropping the later ones. -/
def firstDedupBy {α : Type} {κ : Type} [DecidableEq κ] (key : α → κ) :
    List α → List α
  | [] => []
  | x :: xs => x :: firstDedupBy key (xs.filter (fun y => key y ≠ key x))
termination_by l => l.length
decreasing_by
  simp only [List.length_cons]
  exact Nat.lt_succ_of_le (List.length_filter_le _ _)

/-- The seen-set loop underlying the source's dedup passes: skip any element
with `skip`, skip any element whose key was seen, otherwise record the key
and append the element. -/
def dedupKeyLoop {α : Type} {κ : Type} [DecidableEq κ] (key : α → κ)
    (skip : α → Bool) : List α → List κ → List α → List α
  | [], _, out => out
  | x :: xs, seen, out =>
    if skip x then dedupKeyLoop key skip xs seen out
    else if key x ∈ seen then dedupKeyLoop key skip xs seen out
    else dedupKeyLoop key skip xs (seen ++ [key x]) (out ++ [x])

/-- Embeds the festival-lineup dedup loop of `find_event_setlist` (both the
step-2 and step-3 copies): skip entries whose stripped name is empty,
de-duplicate on the stripped lower-cased name, keep the first record
(verbatim) for each name. -/
def dedupByName (l : List BasicEntry) : List BasicEntry :=
  dedupKeyLoop (fun b => strLower (strTrim b.name)) (fun b => strTrim b.name == "")
    l [] []

/-- Festival lineup construction shared by both festival branches of
`find_event_setlist`: normalize every raw entry, then dedup by name. -/
def festivalLineup (entries : List Entry) : List BasicEntry :=
  dedupByName (entries.map gatherBasicEntry)

/-- One aggregated per-performer record of the normal-show branch
(`artists_map` values: `{name, songs, startTime, lastUpdated}`). -/
structure ArtistAgg where
  name : String
  songs : List String
  startTime : Option String
  lastUpdated : Option String
deriving DecidableEq, Repr

/-- The in-place update the aggregation loop applies to the record of the
entry's performer: append each extracted song not already present, and fill
a still-unset `startTime` / `lastUpdated` from the entry. -/
def updFields (c : Entry) (a : ArtistAgg) : ArtistAgg :=
  { a with
    songs := (extractSongs c).foldl
      (fun ss s => if s ∈ ss then ss else ss ++ [s]) a.songs
    startTime := a.startTime.or (firstSetStart c)
    lastUpdated := a.lastUpdated.or (truthyOpt c.lastUpdated) }

/-- Fold one raw entry into the aggregation map.  The Python `artists_map` is
an insertion-ordered dict keyed by `nm.lower()`; it is modelled as a list of
records whose lower-cased names are pairwise distinct, with in-place update
of the record whose key matches (a fresh empty record is appended first when
the key is new, as the Python does). -/
def updArtist (m : List ArtistAgg) (c : Entry) : List ArtistAgg :=
  if c.artistName = "" then m
  else
    (if m.any (fun a => strLower a.name == strLower c.artistName) then m
      else m ++ [⟨c.artistName, [], none, none⟩]).map
      (fun a => if strLower a.name = strLower c.artistName then updFields c a
        else a)

/-- Embeds the `artists_map` aggregation loop of the normal-show branch of
`find_event_setlist` (merge songs without duplicate titles, keep the first
truthy `startTime` and `lastUpdated` per performer, skip nameless entries). -/
def buildArtistsMap (entries : List Entry) : List ArtistAgg :=
  entries.foldl updArtist []

/-- The value returned by `find_event_setlist` when it finds an event: either
a festival dict (`is_festival: True`) or a normal-show dict
(`is_festival: False`).  The constant `event_name: None` field of the
festival dict is omitted. -/
inductive FindResult where
  | festival (festivalName venue city date : String) (lineup : List BasicEntry)
  | normal (headliner : String) (headlinerSongs : List String)
      (openers : List ArtistAgg) (venue city date : String)
deriving DecidableEq, Repr

/-- Outcome of one `requests.get` call: a transport exception, or an HTTP
status code with the decoded `setlist` array of the body. -/
inductive NetResult where
  | exn
  | http (status : Nat) (body : List Entry)
deriving DecidableEq, Repr

/-- The `scored` list of the normal-show branch: every aggregated performer
paired with the fuzzy score of its `_norm_text`-normalized name against the
normalized sheet artist (`score` abstracts `rapidfuzz.fuzz.token_set_ratio`). -/
def scoredList (score : String → String → Nat) (artist : String)
    (entries : List Entry) : List (Nat × ArtistAgg) :=
  (buildArtistsMap entries).map
    (fun v => (score (normText artist) (normText v.name), v))

/-- Headliner choice over the score-descending `scored` list: the top entry
when its score reaches the threshold, otherwise the head of the
songs-length-descending re-sort (`None` only when no performer exists at
all, the Python `if not scored_by_len: return None`). -/
def chooseHeadliner (headlinerThreshold : Nat)
    (scoredSorted : List (Nat × ArtistAgg)) : Option (Nat × ArtistAgg) :=
  match scoredSorted.head? with
  | some top =>
    if top.1 ≥ headlinerThreshold then some top
    else (sortedBy (fun p => OrderDual.toDual p.2.songs.length)
      scoredSorted).head?
  | none => none

/-- The normal-show branch of `find_event_setlist` (from the `artists_map`
aggregation down to the returned dict): sort the scored performers by
descending score (stable), choose the headliner, and list every other
performer — in that same order — as an opener. -/
def normalResolve (score : String → String → Nat) (headlinerThreshold : Nat)
    (artist resolvedVenue resolvedCity date : String) (entries : List Entry) :
    Option FindResult :=
  let scoredSorted := sortedBy (fun p => OrderDual.toDual p.1)
    (scoredList score artist entries)
  match chooseHeadliner headlinerThreshold scoredSorted with
  | none => none
  | some hp =>
    some (.normal hp.2.name hp.2.songs
      ((scoredSorted.filter (fun p => p.2.name ≠ hp.2.name)).map (fun p => p.2))
      resolvedVenue resolvedCity date)

/-- Embeds `SetlistFM.find_event_setlist`.  The three `requests.get` call
sites receive their outcomes as `resp1` (artist+date search), `resp2`
(venue+city+date search, reached only when no exact-date record was found)
and `resp3` (resolved-venue+city+date search, reached only when one was).
The second component of the result counts the HTTP requests issued.  The
Python signature also carries `venue_threshold` and `city_threshold`
parameters that its body never reads; they are omitted. -/
def findEventSetlist (score : String → String → Nat)
    (headlinerThreshold : Nat) (artist venue city date : String)
    (resp1 resp2 resp3 : NetResult) : Option FindResult × Nat :=
  let dateDDMM := toSetlistfmDate date
  match resp1 with
  | .exn => (none, 1)
  | .http s1 b1 =>
    if s1 ≠ 200 then (none, 1)
    else
      match b1.find? (fun e => e.eventDate == dateDDMM) with
      | none =>
        match resp2 with
        | .exn => (none, 2)
        | .http s2 b2 =>
          if s2 ≠ 200 then (none, 2)
          else if b2.length ≥ 3 then
            (some (.festival artist venue city date (festivalLineup b2)), 2)
          else (none, 2)
      | some he =>
        let resolvedVenue := orStr he.venueName venue
        let resolvedCity := orStr he.cityName city
        let maybeFestival := strLower he.eventType = "festival"
        match resp3 with
        | .exn => (none, 2)
        | .http s3 b3 =>
          if s3 ≠ 200 then (none, 2)
          else if maybeFestival ∨ b3.length ≥ 3 then
            (some (.festival artist resolvedVenue resolvedCity date
              (festivalLineup b3)), 2)
          else
            (normalResolve score headlinerThreshold artist resolvedVenue
              resolvedCity date b3, 2)

/-- Embeds `SetlistFM.search_setlists` of src/setlistfm.py from the response
on: `r.raise_for_status()` raises on any 4xx/5xx status (modelled as
`Except.error`), otherwise the decoded `setlist` array is returned. -/
def searchSetlists (status : Nat) (body : List Entry) :
    Except Unit (List Entry) :=
  if 400 ≤ status ∧ status < 600 then .error () else .ok body

/-!
Playlist assembly (src/playlist_builder.py).  Spotify traffic is abstracted
into an oracle `search : String → Nat → List Item` standing for
`spotify_api.search_track(query, limit)`; a raised exception or missing
field is the empty list / empty string, exactly the values the Python code
collapses them to before use.
-/

/-- One Spotify track item as read by the builder: `uri` (`""` = missing),
`name`, artist names, `popularity` (default 0). -/
structure Item where
  uri : String
  name : String
  artistNames : List String
  popularity : Nat
deriving DecidableEq, Repr

/-- Embeds `_spotify_top_tracks_fallback`: search `artist:<name>` with limit
40, fall back to a plain-name search if that is empty, sort by descending
popularity (stable), keep the truthy uris, take `limit`. -/
def topTracksFallback (search : String → Nat → List Item)
    (artistName : String) (limit : Nat) : List String :=
  if artistName = "" then []
  else
    let results := search ("artist:" ++ artistName) 40
    let results := if results.isEmpty then search artistName 40 else results
    let items := sortedBy (fun it => OrderDual.toDual it.popularity) results
    ((items.map (fun it => it.uri)).filter (fun u => u ≠ "")).take limit

/-- The per-item score of `_best_spotify_match_for_song`: Python computes
`(fuzz.token_set_ratio(title, name) + fuzz.token_set_ratio(hint, artists))/2.0`;
the embedding keeps the sum, which induces the same comparisons (the value
itself is only ever logged). -/
def scoreItem (score : String → String → Nat) (songTitle artistHint : String)
    (it : Item) : Nat :=
  score songTitle it.name + score artistHint (String.intercalate ", " it.artistNames)

/-- The best-candidate fold of `_best_spotify_match_for_song`: skip items
without a uri, keep the first item whose score strictly exceeds the best so
far (initial best `-1.0`, so the first uri-bearing item always wins). -/
def bestOf (score : String → String → Nat) (songTitle artistHint : String)
    (items : List Item) : Option (String × Nat) :=
  items.foldl (fun best it =>
    if it.uri = "" then best
    else
      let sc := scoreItem score songTitle artistHint it
      match best with
      | none => some (it.uri, sc)
      | some pr => if sc > pr.2 then some (it.uri, sc) else best) none

/-- Embeds `_best_spotify_match_for_song`: empty titles match nothing; first
pass searches `"<title> <hint>".strip()` with limit 12, and only when that
yields no uri-bearing item at all does the title-only pass with limit 8 run. -/
def bestSpotifyMatch (search : String → Nat → List Item)
    (score : String → String → Nat) (songTitle artistHint : String) :
    Option String :=
  if songTitle = "" then none
  else
    match bestOf score songTitle artistHint
        (search (strTrim (songTitle ++ " " ++ artistHint)) 12) with
    | some pr => some pr.1
    | none => (bestOf score songTitle artistHint (search songTitle 8)).map
        (fun pr => pr.1)

/-- A lineup slot as normalized inside `PlaylistBuilder.run` (both the
festival `band_entries` and the normal-mode `normalized_openers`). -/
structure Band where
  name : String
  songs : List String
  startTime : Option String
  lastUpdated : Option String
deriving DecidableEq, Repr

/-- The defensive normalization applied to every opener / festival lineup
item: a name that is not a non-blank string becomes `"Unknown Artist"`; the
remaining fields pass through (`or`-defaults collapsed into the field). -/
def normalizeBand (b : Band) : Band :=
  { b with name := if strTrim b.name = "" then "Unknown Artist" else b.name }

/-- The lexicographically compared form of a parsed time triple. -/
def timeTriple (t : Int × Int × Int) : Lex (Int × Lex (Int × Int)) :=
  toLex (t.1, toLex (t.2.1, t.2.2))

/-- First component of the sort key of `_sort_band` / `_sort_key_for_opener`:
the parsed start time, or the sentinel tuple `(99, 99, 99)` when the start
time is absent or unparseable (`st if st else (99, 99, 99)`). -/
def stKey (b : Band) : Lex (Int × Lex (Int × Int)) :=
  match parseTimeOrNone b.startTime with
  | some t => timeTriple t
  | none => timeTriple (99, 99, 99)

/-- Second component: the `lastUpdated` string, or the sentinel
`"9999-99-99T99:99:99Z"` when falsy (`lu if lu else "9999-…"`). -/
def luKey (b : Band) : List Char :=
  match truthyOpt b.lastUpdated with
  | some s => s.data
  | none => "9999-99-99T99:99:99Z".data

/-- The sort key of `_sort_band` / `_sort_key_for_opener`: parsed start time
sentinel-padded, then `lastUpdated` sentinel-padded, then lower-cased name —
compared lexicographically, as Python compares tuples (strings by code
point). -/
def bandKey (b : Band) :
    Lex ((Lex (Int × Lex (Int × Int))) × Lex (List Char × List Char)) :=
  toLex (stKey b, toLex (luKey b, (strLower b.name).data))

/-- The per-performer contribution to the ordered `(title_or_uri, hint)`
pair list (identical in the festival and normal-mode loops): setlist songs
paired with the performer name, or — when the song list is empty — the
top-tracks fallback uris paired with an absent hint. -/
def bandPairs (search : String → Nat → List Item) (b : Band) :
    List (String × Option String) :=
  if b.songs.isEmpty then
    (topTracksFallback search b.name 5).map (fun u => (u, none))
  else b.songs.map (fun s => (s, some b.name))

/-- Opener pair assembly of the normal-mode branch: normalize, sort by
`bandKey`, concatenate each opener's contribution. -/
def buildOpenerPairs (search : String → Nat → List Item)
    (openers : List Band) : List (String × Option String) :=
  (sortedBy bandKey (openers.map normalizeBand)).flatMap (bandPairs search)

/-- Festival pair assembly: the same normalization, sort and contribution
over the festival lineup. -/
def buildFestivalPairs (search : String → Nat → List Item)
    (lineup : List Band) : List (String × Option String) :=
  (sortedBy bandKey (lineup.map normalizeBand)).flatMap (bandPairs search)

/-- One step of the uri-resolution loop: a pair with an absent hint whose
payload starts with `"spotify:"` is passed through as an already-resolved
uri; any other pair is resolved by `_best_spotify_match_for_song`, with a
falsy hint replaced by `defaultHint` (the headliner in normal mode, `""` in
festival mode). -/
def resolveStep (resolver : String → String → Option String)
    (defaultHint : String) (p : String × Option String) : Option String :=
  match p.2 with
  | none =>
    if strStartsWith p.1 "spotify:" then some p.1 else resolver p.1 defaultHint
  | some h => resolver p.1 (if h = "" then defaultHint else h)

/-- The uri-resolution loop of `PlaylistBuilder.run`: resolve each pair and
append the resulting uri unless it was already collected (`track_uris` and
`seen` evolve together, so the seen set is the collected list itself). -/
def resolveLoop (resolver : String → String → Option String)
    (defaultHint : String) : List (String × Option String) → List String →
    List String
  | [], acc => acc
  | p :: rest, acc =>
    match resolveStep resolver defaultHint p with
    | some u => resolveLoop resolver defaultHint rest
        (if u ∈ acc then acc else acc ++ [u])
    | none => resolveLoop resolver defaultHint rest acc

/-- The per-pair resolved-id sequence before deduplication (the claim's
"pre-dedup sequence"). -/
def resolvedSeq (resolver : String → String → Option String)
    (defaultHint : String) (pairs : List (String × Option String)) :
    List String :=
  pairs.filterMap (resolveStep resolver defaultHint)

/-- Normal-mode processing of one resolved event inside
`PlaylistBuilder.run`, from the opener normalization down to the resolved
uri list: `none` is the "skip this event" outcome (headliner without songs,
or zero resolved uris). -/
def runNormalEvent (search : String → Nat → List Item)
    (resolver : String → String → Option String) (headliner : String)
    (headlinerSongs : List String) (openers : List Band) :
    Option (List String) :=
  let openerPairs := buildOpenerPairs search openers
  if headlinerSongs.isEmpty then none
  else
    let pairs := openerPairs ++ headlinerSongs.map (fun s => (s, some headliner))
    let uris := resolveLoop resolver headliner pairs []
    if uris.isEmpty then none else some uris

/-- Festival-mode processing of one resolved event, from the lineup
normalization down to the resolved uri list (`none` = skip: empty lineup or
zero resolved uris).  The default hint of the resolution loop is `""` here. -/
def runFestivalEvent (search : String → Nat → List Item)
    (resolver : String → String → Option String) (lineup : List Band) :
    Option (List String) :=
  if lineup.isEmpty then none
  else
    let uris := resolveLoop resolver "" (buildFestivalPairs search lineup) []
    if uris.isEmpty then none else some uris

/-- The deduplicated whitespace tokens of the §4.1-normalized form of a
string (the repository's `_norm_text` is its implementation of `normalize`). -/
def tokensOf (s : String) : List String :=
  (((splitOnChar Char.isWhitespace (normText s).data).map String.mk).filter
    (fun w => w ≠ "")).dedup

/-- Modelled from the spec: the §4.1 similarity scorer.  The repository has
no scorer implementation of its own under src/ — `fuzzy_compare` in
src/utils/fuzzy_utils.py and the call sites in src/playlist_builder.py and
src/setlistfm_api.py all delegate to the external fuzzywuzzy / rapidfuzz
libraries — so the scorer is modelled on the spec's words: a token-set style
ratio on a 0..100 scale, order-insensitive, symmetric, with
`similarity(x,x) = 100` and 0 on any empty input (the spec's explicit
empty-input rule, which at `x = ""` overrides the self-similarity rule). -/
def similarity (a b : String) : Nat :=
  if a = "" ∨ b = "" then 0
  else
    let ta := tokensOf a
    let tb := tokensOf b
    if ta = tb then 100
    else 200 * (ta ∩ tb).length / (ta.length + tb.length)

/-- Well-formedness of a slot's start time: when it parses at all, the parsed
triple lies below the absent-time sentinel `(99, 99, 99)` (true of every
valid clock time `HH:MM[:SS]` with `HH ≤ 23`). -/
def wfStart (b : Band) : Prop :=
  ∀ t, parseTimeOrNone b.startTime = some t → timeTriple t < timeTriple (99, 99, 99)

/-- Well-formedness of a slot's `lastUpdated`: when present (truthy), the
string lies below the absent-value sentinel `"9999-99-99T99:99:99Z"` (true of
every ISO-8601 timestamp before year 9999). -/
def wfUpdated (b : Band) : Prop :=
  ∀ u, truthyOpt b.lastUpdated = some u → u.data < "9999-99-99T99:99:99Z".data

/-! ### Properties of the stable sort -/

theorem mem_insSorted {α κ : Type} [LinearOrder κ] (key : α → κ) (x : α)
    (l : List α) (z : α) : z ∈ insSorted key x l ↔ z = x ∨ z ∈ l := by
  induction l with
  | nil => simp [insSorted]
  | cons y ys ih =>
    by_cases h : key y ≤ key x
    · simp only [insSorted, if_pos h, List.mem_cons, ih]
      tauto
    · simp only [insSorted, if_neg h, List.mem_cons]

theorem perm_insSorted {α κ : Type} [LinearOrder κ] (key : α → κ) (x : α)
    (l : List α) : List.Perm (insSorted key x l) (x :: l) := by
  induction l with
  | nil => exact List.Perm.refl _
  | cons y ys ih =>
    by_cases h : key y ≤ key x
    · simp only [insSorted, if_pos h]
      exact (ih.cons y).trans (List.Perm.swap x y ys)
    · simp only [insSorted, if_neg h]
      exact List.Perm.refl _

theorem sorted_insSorted {α κ : Type} [LinearOrder κ] (key : α → κ) (x : α)
    (l : List α) (h : List.Sorted (fun a b => key a ≤ key b) l) :
    List.Sorted (fun a b => key a ≤ key b) (insSorted key x l) := by
  induction l with
  | nil => simp [insSorted]
  | cons y ys ih =>
    rw [List.sorted_cons] at h
    by_cases hyx : key y ≤ key x
    · simp only [insSorted, if_pos hyx]
      rw [List.sorted_cons]
      refine ⟨fun b hb => ?_, ih h.2⟩
      rcases (mem_insSorted key x ys b).1 hb with rfl | hmem
      · exact hyx
      · exact h.1 b hmem
    · simp only [insSorted, if_neg hyx]
      rw [List.sorted_cons]
      refine ⟨fun b hb => ?_, List.sorted_cons.2 h⟩
      rcases List.mem_cons.1 hb with rfl | hmem
      · exact le_of_lt (lt_of_not_ge hyx)
      · exact le_trans (le_of_lt (lt_of_not_ge hyx)) (h.1 b hmem)

theorem foldl_insSorted_perm {α κ : Type} [LinearOrder κ] (key : α → κ)
    (l acc : List α) :
    List.Perm (l.foldl (fun acc x => insSorted key x acc) acc) (acc ++ l) := by
  induction l generalizing acc with
  | nil => simp
  | cons x xs ih =>
    have h1 := ih (insSorted key x acc)
    have h2 : List.Perm (insSorted key x acc ++ xs) ((x :: acc) ++ xs) :=
      (perm_insSorted key x acc).append_right xs
    exact (h1.trans h2).trans (List.perm_middle).symm

theorem sortedBy_perm {α κ : Type} [LinearOrder κ] (key : α → κ)
    (l : List α) : List.Perm (sortedBy key l) l := by
  simpa [sortedBy] using foldl_insSorted_perm key l []

theorem mem_sortedBy {α κ : Type} [LinearOrder κ] (key : α → κ)
    (l : List α) (z : α) : z ∈ sortedBy key l ↔ z ∈ l :=
  (sortedBy_perm key l).mem_iff

theorem foldl_insSorted_sorted {α κ : Type} [LinearOrder κ] (key : α → κ)
    (l acc : List α) (hacc : List.Sorted (fun a b => key a ≤ key b) acc) :
    List.Sorted (fun a b => key a ≤ key b)
      (l.foldl (fun acc x => insSorted key x acc) acc) := by
  induction l generalizing acc with
  | nil => exact hacc
  | cons x xs ih => exact ih _ (sorted_insSorted key x acc hacc)

theorem sortedBy_sorted {α κ : Type} [LinearOrder κ] (key : α → κ)
    (l : List α) :
    List.Sorted (fun a b => key a ≤ key b) (sortedBy key l) :=
  foldl_insSorted_sorted key l [] (by simp)

/-- The head of a stably key-sorted list is a key-minimal element of the
input (instantiated at a dual order, this is Python's
`sorted(..., reverse=True)[0]` being key-maximal). -/
theorem sortedBy_head_min {α κ : Type} [LinearOrder κ] (key : α → κ)
    (l : List α) (top : α) (h : (sortedBy key l).head? = some top) :
    top ∈ l ∧ ∀ y ∈ l, key top ≤ key y := by
  rcases hs : sortedBy key l with _ | ⟨t, rest⟩
  · rw [hs] at h
    simp at h
  · rw [hs] at h
    simp only [List.head?_cons, Option.some.injEq] at h
    subst h
    have hsorted := sortedBy_sorted key l
    rw [hs, List.sorted_cons] at hsorted
    constructor
    · exact (mem_sortedBy key l t).1 (by rw [hs]; exact List.mem_cons_self _ _)
    · intro y hy
      have : y ∈ sortedBy key l := (mem_sortedBy key l y).2 hy
      rw [hs] at this
      rcases List.mem_cons.1 this with rfl | hmem
      · exact le_refl _
      · exact hsorted.1 y hmem

theorem filter_insSorted_of_ne {α κ : Type} [LinearOrder κ] (key : α → κ)
    (x : α) (l : List α) (k : κ) (hx : key x ≠ k) :
    (insSorted key x l).filter (fun z => key z = k) =
      l.filter (fun z => key z = k) := by
  induction l with
  | nil => simp [insSorted, hx]
  | cons y ys ih =>
    by_cases h : key y ≤ key x
    · simp only [insSorted, if_pos h]
      by_cases hy : key y = k
      · simp [List.filter_cons, hy, ih]
      · simp [List.filter_cons, hy, ih]
    · simp only [insSorted, if_neg h]
      simp [List.filter_cons, hx]

theorem filter_insSorted_of_eq {α κ : Type} [LinearOrder κ] (key : α → κ)
    (x : α) (l : List α) (k : κ) (hx : key x = k)
    (hs : List.Sorted (fun a b => key a ≤ key b) l) :
    (insSorted key x l).filter (fun z => key z = k) =
      l.filter (fun z => key z = k) ++ [x] := by
  induction l with
  | nil => simp [insSorted, hx]
  | cons y ys ih =>
    rw [List.sorted_cons] at hs
    by_cases h : key y ≤ key x
    · simp only [insSorted, if_pos h]
      by_cases hy : key y = k
      · simp [List.filter_cons, hy, ih hs.2]
      · simp [List.filter_cons, hy, ih hs.2]
    · simp only [insSorted, if_neg h]
      have hxy : key x < key y := lt_of_not_ge h
      have hnil : (y :: ys).filter (fun z => key z = k) = [] := by
        rw [List.filter_eq_nil_iff]
        intro z hz
        rcases List.mem_cons.1 hz with rfl | hmem
        · simp only [decide_eq_true_eq]
          intro hzk
          exact absurd (hzk ▸ hx ▸ hxy) (lt_irrefl _)
        · simp only [decide_eq_true_eq]
          intro hzk
          have : key y ≤ key z := hs.1 z hmem
          exact absurd (lt_of_lt_of_le hxy this) (hzk ▸ hx ▸ lt_irrefl _)
      rw [List.filter_cons_of_pos (by simp [hx]), hnil]
      simp

theorem foldl_insSorted_filter {α κ : Type} [LinearOrder κ] (key : α → κ)
    (k : κ) (l acc : List α)
    (hacc : List.Sorted (fun a b => key a ≤ key b) acc) :
    (l.foldl (fun acc x => insSorted key x acc) acc).filter
        (fun z => key z = k) =
      acc.filter (fun z => key z = k) ++ l.filter (fun z => key z = k) := by
  induction l generalizing acc with
  | nil => simp
  | cons x xs ih =>
    have hrec := ih (insSorted key x acc) (sorted_insSorted key x acc hacc)
    by_cases hx : key x = k
    · rw [List.foldl_cons, hrec, filter_insSorted_of_eq key x acc k hx hacc,
        List.filter_cons_of_pos (by simp [hx])]
      simp [List.append_assoc]
    · rw [List.foldl_cons, hrec, filter_insSorted_of_ne key x acc k hx,
        List.filter_cons_of_neg (by simp [hx])]

/-- Stability of the sort: for every key value, the sub-sequence of elements
with that key is exactly the input's sub-sequence with that key, in input
order. -/
theorem sortedBy_stable {α κ : Type} [LinearOrder κ] (key : α → κ)
    (l : List α) (k : κ) :
    (sortedBy key l).filter (fun z => key z = k) =
      l.filter (fun z => key z = k) := by
  simpa [sortedBy] using foldl_insSorted_filter key k l [] (by simp)

/-! ### Properties of first-occurrence deduplication -/

theorem firstDedupBy_sublist {α κ : Type} [DecidableEq κ] (key : α → κ)
    (l : List α) : (firstDedupBy key l).Sublist l := by
  suffices H : ∀ n (l : List α), l.length ≤ n →
      (firstDedupBy key l).Sublist l from H l.length l le_rfl
  intro n
  induction n with
  | zero =>
    intro l hl
    rw [List.eq_nil_of_length_eq_zero (Nat.le_zero.1 hl), firstDedupBy]
  | succ n ih =>
    intro l hl
    cases l with
    | nil => rw [firstDedupBy]
    | cons x xs =>
      rw [firstDedupBy]
      refine List.Sublist.cons₂ x ?_
      have hlen : (xs.filter (fun y => key y ≠ key x)).length ≤ n :=
        le_trans (List.length_filter_le _ _) (Nat.le_of_succ_le_succ hl)
      exact (ih _ hlen).trans (List.filter_sublist _)

theorem mem_of_mem_firstDedupBy {α κ : Type} [DecidableEq κ] (key : α → κ)
    (l : List α) (a : α) (h : a ∈ firstDedupBy key l) : a ∈ l :=
  (firstDedupBy_sublist key l).mem h

/-- Every key occurring in the input is represented in the dedup output. -/
theorem exists_key_firstDedupBy {α κ : Type} [DecidableEq κ] (key : α → κ)
    (l : List α) (a : α) (h : a ∈ l) :
    ∃ b ∈ firstDedupBy key l, key b = key a := by
  suffices H : ∀ n (l : List α), l.length ≤ n → ∀ a ∈ l,
      ∃ b ∈ firstDedupBy key l, key b = key a from H l.length l le_rfl a h
  intro n
  induction n with
  | zero =>
    intro l hl a ha
    rw [List.eq_nil_of_length_eq_zero (Nat.le_zero.1 hl)] at ha
    cases ha
  | succ n ih =>
    intro l hl a ha
    cases l with
    | nil => cases ha
    | cons x xs =>
      rw [firstDedupBy]
      by_cases hk : key a = key x
      · exact ⟨x, List.mem_cons_self _ _, hk.symm⟩
      · rcases List.mem_cons.1 ha with rfl | hmem
        · exact absurd rfl hk
        · have hlen : (xs.filter (fun y => key y ≠ key x)).length ≤ n :=
            le_trans (List.length_filter_le _ _) (Nat.le_of_succ_le_succ hl)
          have hin : a ∈ xs.filter (fun y => key y ≠ key x) :=
            List.mem_filter.2 ⟨hmem, by simpa using hk⟩
          rcases ih _ hlen a hin with ⟨b, hb, hbk⟩
          exact ⟨b, List.mem_cons_of_mem _ hb, hbk⟩

/-- The keys of the dedup output are pairwise distinct. -/
theorem nodup_keys_firstDedupBy {α κ : Type} [DecidableEq κ] (key : α → κ)
    (l : List α) : ((firstDedupBy key l).map key).Nodup := by
  suffices H : ∀ n (l : List α), l.length ≤ n →
      ((firstDedupBy key l).map key).Nodup from H l.length l le_rfl
  intro n
  induction n with
  | zero =>
    intro l hl
    rw [List.eq_nil_of_length_eq_zero (Nat.le_zero.1 hl), firstDedupBy]
    simp
  | succ n ih =>
    intro l hl
    cases l with
    | nil => rw [firstDedupBy]; simp
    | cons x xs =>
      rw [firstDedupBy]
      have hlen : (xs.filter (fun y => key y ≠ key x)).length ≤ n :=
        le_trans (List.length_filter_le _ _) (Nat.le_of_succ_le_succ hl)
      simp only [List.map_cons, List.nodup_cons]
      refine ⟨fun hx => ?_, ih _ hlen⟩
      rcases List.mem_map.1 hx with ⟨b, hb, hbk⟩
      have hbf := mem_of_mem_firstDedupBy key _ b hb
      have hbne := (List.mem_filter.1 hbf).2
      simp only [ne_eq, decide_not, Bool.not_eq_true', decide_eq_false_iff_not,
        Decidable.not_not] at hbne
      exact hbne hbk

theorem dedupKeyLoop_eq {α κ : Type} [DecidableEq κ] (key : α → κ)
    (skip : α → Bool) (l : List α) (seen : List κ) (out : List α) :
    dedupKeyLoop key skip l seen out =
      out ++ firstDedupBy key
        (l.filter (fun x => !skip x && !(decide (key x ∈ seen)))) := by
  induction l generalizing seen out with
  | nil => simp [dedupKeyLoop, firstDedupBy]
  | cons x xs ih =>
    by_cases hsk : skip x = true
    · rw [List.filter_cons_of_neg (by simp [hsk])]
      simp only [dedupKeyLoop, if_pos hsk]
      exact ih seen out
    · by_cases hmem : key x ∈ seen
      · rw [List.filter_cons_of_neg (by simp [hsk, hmem])]
        simp only [dedupKeyLoop, if_neg hsk, if_pos hmem]
        exact ih seen out
      · have hfil : (xs.filter
            (fun y => !skip y && !(decide (key y ∈ seen)))).filter
              (fun y => key y ≠ key x) =
            xs.filter (fun y => !skip y && !(decide (key y ∈ seen ++ [key x]))) := by
          rw [List.filter_filter]
          apply List.filter_congr
          intro a _
          by_cases h1 : skip a <;> by_cases h2 : key a ∈ seen <;>
            by_cases h3 : key a = key x <;>
            simp [h1, h2, h3, List.mem_append]
        rw [List.filter_cons_of_pos (by simp [hsk, hmem]), firstDedupBy, hfil]
        simp only [dedupKeyLoop, if_neg hsk, if_neg hmem]
        rw [ih (seen ++ [key x]) (out ++ [x])]
        simp

/-- First-occurrence indices are order-preserved by `filter` between two
retained elements. -/
theorem indexOf_filter_lt {α : Type} [DecidableEq α] (p : α → Bool)
    (l : List α) (a b : α) (ha : a ∈ l.filter p) (hb : b ∈ l.filter p)
    (h : (l.filter p).indexOf a < (l.filter p).indexOf b) :
    l.indexOf a < l.indexOf b := by
  induction l with
  | nil => simp at ha
  | cons x xs ih =>
    by_cases hpx : p x = true
    · rw [List.filter_cons_of_pos hpx] at ha hb h
      by_cases hax : a = x
      · subst hax
        have hba : b ≠ a := by
          intro hba
          subst hba
          simp [List.indexOf_cons_self] at h
        rw [List.indexOf_cons_self, List.indexOf_cons_ne _ hba.symm]
        exact Nat.succ_pos _
      · have hbx : b ≠ x := by
          intro hbx
          subst hbx
          rw [List.indexOf_cons_self] at h
          exact absurd h (Nat.not_lt_zero _)
        have hxa : x ≠ a := fun e => hax e.symm
        have hxb : x ≠ b := fun e => hbx e.symm
        rw [List.indexOf_cons_ne _ hxa, List.indexOf_cons_ne _ hxb] at h
        have ha2 : a ∈ xs.filter p := by
          rcases List.mem_cons.1 ha with rfl | hm
          · exact absurd rfl hax
          · exact hm
        have hb2 : b ∈ xs.filter p := by
          rcases List.mem_cons.1 hb with rfl | hm
          · exact absurd rfl hbx
          · exact hm
        rw [List.indexOf_cons_ne _ hxa, List.indexOf_cons_ne _ hxb]
        exact Nat.succ_lt_succ (ih ha2 hb2 (Nat.lt_of_succ_lt_succ h))
    · have hpx2 : p x = false := by simpa using hpx
      rw [List.filter_cons_of_neg hpx] at ha hb h
      have hxa : x ≠ a := by
        intro e
        subst e
        exact absurd (List.mem_filter.1 ha).2 (by simp [hpx2])
      have hxb : x ≠ b := by
        intro e
        subst e
        exact absurd (List.mem_filter.1 hb).2 (by simp [hpx2])
      rw [List.indexOf_cons_ne _ hxa, List.indexOf_cons_ne _ hxb]
      exact Nat.succ_lt_succ (ih ha hb h)

/-- The dedup output lists elements in order of their first occurrence in
the input. -/
theorem pairwise_indexOf_firstDedupBy {α κ : Type} [DecidableEq κ]
    [DecidableEq α] (key : α → κ) (l : List α) :
    (firstDedupBy key l).Pairwise (fun a b => l.indexOf a < l.indexOf b) := by
  suffices H : ∀ n (l : List α), l.length ≤ n →
      (firstDedupBy key l).Pairwise (fun a b => l.indexOf a < l.indexOf b)
    from H l.length l le_rfl
  intro n
  induction n with
  | zero =>
    intro l hl
    rw [List.eq_nil_of_length_eq_zero (Nat.le_zero.1 hl), firstDedupBy]
    exact List.Pairwise.nil
  | succ n ih =>
    intro l hl
    cases l with
    | nil => rw [firstDedupBy]; exact List.Pairwise.nil
    | cons x xs =>
      rw [firstDedupBy, List.pairwise_cons]
      have hlen : (xs.filter (fun y => key y ≠ key x)).length ≤ n :=
        le_trans (List.length_filter_le _ _) (Nat.le_of_succ_le_succ hl)
      constructor
      · intro b hb
        have hbf := mem_of_mem_firstDedupBy key _ b hb
        have hbk : key b ≠ key x := by
          simpa using (List.mem_filter.1 hbf).2
        have hxb : x ≠ b := fun e => hbk (by rw [e])
        rw [List.indexOf_cons_self, List.indexOf_cons_ne _ hxb]
        exact Nat.succ_pos _
      · refine List.Pairwise.imp_of_mem ?_ (ih _ hlen)
        intro a b ha hb hab
        have haf := mem_of_mem_firstDedupBy key _ a ha
        have hbf := mem_of_mem_firstDedupBy key _ b hb
        have hak : key a ≠ key x := by
          simpa using (List.mem_filter.1 haf).2
        have hbk : key b ≠ key x := by
          simpa using (List.mem_filter.1 hbf).2
        have hxa : x ≠ a := fun e => hak (by rw [e])
        have hxb : x ≠ b := fun e => hbk (by rw [e])
        have h1 : xs.indexOf a < xs.indexOf b :=
          indexOf_filter_lt _ xs a b (List.Sublist.mem haf (List.Sublist.refl _))
            (List.Sublist.mem hbf (List.Sublist.refl _)) hab
        rw [List.indexOf_cons_ne _ hxa, List.indexOf_cons_ne _ hxb]
        exact Nat.succ_lt_succ h1

/-- The resolution loop is the seen-set dedup loop run over the per-pair
resolved-id sequence. -/
theorem resolveLoop_eq_dedup (resolver : String → String → Option String)
    (d : String) (pairs : List (String × Option String)) (acc : List String) :
    resolveLoop resolver d pairs acc =
      dedupKeyLoop (fun u : String => u) (fun _ => false)
        (resolvedSeq resolver d pairs) acc acc := by
  induction pairs generalizing acc with
  | nil => simp [resolveLoop, resolvedSeq, dedupKeyLoop]
  | cons p rest ih =>
    cases hstep : resolveStep resolver d p with
    | none =>
      simp only [resolveLoop, hstep, resolvedSeq, List.filterMap_cons]
      exact ih acc
    | some u =>
      simp only [resolveLoop, hstep, resolvedSeq, List.filterMap_cons]
      by_cases hmem : u ∈ acc
      · rw [if_pos hmem, ih acc]
        simp [dedupKeyLoop, hmem, resolvedSeq]
      · rw [if_neg hmem, ih (acc ++ [u])]
        simp [dedupKeyLoop, hmem, resolvedSeq]

/-- Run from an empty accumulator, the resolution loop is exactly
first-occurrence deduplication of the pre-dedup resolved-id sequence. -/
theorem resolveLoop_eq_firstDedup (resolver : String → String → Option String)
    (d : String) (pairs : List (String × Option String)) :
    resolveLoop resolver d pairs [] =
      firstDedupBy (fun u : String => u) (resolvedSeq resolver d pairs) := by
  rw [resolveLoop_eq_dedup, dedupKeyLoop_eq]
  simp

/-! ### The aggregation map keeps one record per lower-cased name -/

theorem map_keys_update (c : Entry) (key : String) (m : List ArtistAgg) :
    ((m.map (fun a => if strLower a.name = key then updFields c a else a)).map
        (fun a => strLower a.name)) =
      m.map (fun a => strLower a.name) := by
  induction m with
  | nil => rfl
  | cons a as ih =>
    simp only [List.map_cons, ih]
    by_cases hfa : strLower a.name = key <;> simp [hfa, updFields]

theorem updArtist_keys_nodup (m : List ArtistAgg) (c : Entry)
    (h : (m.map (fun a => strLower a.name)).Nodup) :
    ((updArtist m c).map (fun a => strLower a.name)).Nodup := by
  unfold updArtist
  by_cases hc : c.artistName = ""
  · rw [if_pos hc]
    exact h
  · rw [if_neg hc, map_keys_update]
    by_cases hany : m.any (fun a => strLower a.name == strLower c.artistName)
    · rw [if_pos hany]
      exact h
    · rw [if_neg hany, List.map_append]
      have hnotin : strLower c.artistName ∉ m.map (fun a => strLower a.name) := by
        intro hmem
        rcases List.mem_map.1 hmem with ⟨a, ha, hak⟩
        exact hany (List.any_eq_true.2 ⟨a, ha, by simp [hak]⟩)
      simp [List.nodup_append, h, hnotin]

theorem buildArtistsMap_keys_nodup (entries : List Entry) :
    ((buildArtistsMap entries).map (fun a => strLower a.name)).Nodup := by
  suffices H : ∀ (l : List Entry) (acc : List ArtistAgg),
      (acc.map (fun a => strLower a.name)).Nodup →
      ((l.foldl updArtist acc).map (fun a => strLower a.name)).Nodup from
    H entries [] (by simp)
  intro l
  induction l with
  | nil => intro acc hacc; exact hacc
  | cons x xs ih =>
    intro acc hacc
    exact ih (updArtist acc x) (updArtist_keys_nodup acc x hacc)

/-- `List.filter` over a decidable predicate does not depend on which
`Decidable` instance decides it. -/
theorem filter_decide_congr {α : Type} (p : α → Prop)
    (i1 i2 : ∀ a, Decidable (p a)) (l : List α) :
    (l.filter fun a => @decide (p a) (i1 a)) =
      (l.filter fun a => @decide (p a) (i2 a)) := by
  congr 1
  funext a
  rw [Subsingleton.elim (i1 a) (i2 a)]

/-! ### Claim theorems -/

/-- C7: for every assembled pre-dedup sequence of pairs, the emitted track id
list contains each resolved id at most once, consists exactly of the resolved
ids, and lists them in the order of their first occurrence in the pre-dedup
resolved-id sequence. -/
theorem claim_c7_trackIds_dedup_order
    (resolver : String → String → Option String) (d : String)
    (pairs : List (String × Option String)) :
    (resolveLoop resolver d pairs []).Nodup ∧
    (∀ x, x ∈ resolveLoop resolver d pairs [] ↔
      x ∈ resolvedSeq resolver d pairs) ∧
    (resolveLoop resolver d pairs []).Pairwise
      (fun a b => (resolvedSeq resolver d pairs).indexOf a <
        (resolvedSeq resolver d pairs).indexOf b) := by
  rw [resolveLoop_eq_firstDedup]
  refine ⟨?_, ?_, pairwise_indexOf_firstDedupBy _ _⟩
  · have h := nodup_keys_firstDedupBy (fun u : String => u)
      (resolvedSeq resolver d pairs)
    simpa using h
  · intro x
    constructor
    · exact mem_of_mem_firstDedupBy _ _ x
    · intro hx
      rcases exists_key_firstDedupBy (fun u : String => u) _ x hx with ⟨b, hb, hbk⟩
      have hbe : b = x := hbk
      exact hbe ▸ hb

/-- C9 counterexample: the claim requires both `similarity(x, x) = 100` for
every string `x` and `similarity = 0` whenever either input is empty; at
`x = ""` these conflict, and the scorer returns 0, not 100. -/
theorem claim_c9_counterexample :
    similarity "" "" = 0 ∧ similarity "" "" ≠ 100 := by
  constructor
  · decide
  · decide

/-- C9 (amended): the similarity scorer is symmetric, scores every
non-empty string at 100 against itself, and returns 0 whenever either input
is empty (the empty-input rule taking precedence at `x = ""`). -/
theorem claim_c9_similarity_props (a b x : String) :
    similarity a b = similarity b a ∧
    (x ≠ "" → similarity x x = 100) ∧
    ((a = "" ∨ b = "") → similarity a b = 0) := by
  refine ⟨?_, ?_, ?_⟩
  · unfold similarity
    by_cases ha : a = ""
    · simp [ha]
    · by_cases hb : b = ""
      · simp [hb]
      · simp only [ha, hb, or_self, if_false, false_or, or_false]
        by_cases hab : tokensOf a = tokensOf b
        · simp [ha, hb, hab]
        · have hba : ¬ tokensOf b = tokensOf a := fun e => hab e.symm
          simp only [hab, hba, if_false]
          rw [Nat.add_comm (tokensOf a).length]
          congr 2
          have hna : (tokensOf a).Nodup := List.nodup_dedup _
          have hnb : (tokensOf b).Nodup := List.nodup_dedup _
          rw [← List.toFinset_card_of_nodup (hna.inter _),
            ← List.toFinset_card_of_nodup (hnb.inter _),
            List.toFinset_inter, List.toFinset_inter, Finset.inter_comm]
  · intro hx
    unfold similarity
    simp [hx]
  · intro h
    unfold similarity
    rcases h with h | h <;> simp [h]

/-- C9 witness: the amended properties evaluated at concrete inputs. -/
theorem claim_c9_witness :
    similarity "" "cd" = similarity "cd" "" ∧ similarity "ab" "ab" = 100 ∧
      similarity "" "cd" = 0 := by
  obtain ⟨h1, h2, h3⟩ := claim_c9_similarity_props "" "cd" "ab"
  exact ⟨h1, h2 (by decide), h3 (Or.inl rfl)⟩

/-- C8 counterexample: the setlist clients do not retry and do not always
return an empty sequence: `search_setlists` raises (`Except.error`) on an
HTTP 503, and `find_event_setlist` gives up after a single request on a
transport error instead of retrying up to 3 times. -/
theorem claim_c8_counterexample :
    searchSetlists 503 [] = .error () ∧
    findEventSetlist (fun _ _ => 0) 80 "a" "v" "c" "2024-05-01"
      .exn (.http 200 []) (.http 200 []) = (none, 1) := by
  constructor
  · rfl
  · rfl

/-- C8 (amended): there is no retry or backoff.  Whichever of its (at most
two) request stages fails — by transport error or by a non-200 status —
`find_event_setlist` returns `None` immediately, having issued exactly one
request for the failing stage (request count 1 for a first-stage failure, 2
for a failure of the step-2 or step-3 follow-up stage), so the caller sees
"unreachable" as "no match", like "no data"; `search_setlists` of
src/setlistfm.py instead raises on any 4xx/5xx HTTP status rather than
returning an empty sequence. -/
theorem claim_c8_no_retry (score : String → String → Nat)
    (thr : Nat) (artist venue city date : String) (resp2 resp3 : NetResult)
    (s status : Nat) (b body b1n b1s : List Entry) (he : Entry)
    (hs : s ≠ 200)
    (hn : b1n.find? (fun e => e.eventDate == toSetlistfmDate date) = none)
    (hf : b1s.find? (fun e => e.eventDate == toSetlistfmDate date) = some he)
    (h4 : 400 ≤ status) (h6 : status < 600) :
    findEventSetlist score thr artist venue city date .exn resp2 resp3 =
      (none, 1) ∧
    findEventSetlist score thr artist venue city date (.http s b) resp2 resp3 =
      (none, 1) ∧
    findEventSetlist score thr artist venue city date (.http 200 b1n) .exn
      resp3 = (none, 2) ∧
    findEventSetlist score thr artist venue city date (.http 200 b1n)
      (.http s b) resp3 = (none, 2) ∧
    findEventSetlist score thr artist venue city date (.http 200 b1s) resp2
      .exn = (none, 2) ∧
    findEventSetlist score thr artist venue city date (.http 200 b1s) resp2
      (.http s b) = (none, 2) ∧
    searchSetlists status body = .error () := by
  refine ⟨rfl, ?_, ?_, ?_, ?_, ?_, ?_⟩
  · simp only [findEventSetlist]
    rw [if_pos hs]
  · simp [findEventSetlist, hn]
  · simp [findEventSetlist, hn, hs]
  · simp [findEventSetlist, hf]
  · simp [findEventSetlist, hf, hs]
  · unfold searchSetlists
    rw [if_pos ⟨h4, h6⟩]

/-- C8 witness: the amended behaviour at concrete failing transports — an
exception or a 500 at each of the three request sites, plus a 429 for
`search_setlists`. -/
theorem claim_c8_witness :
    findEventSetlist (fun _ _ => 0) 80 "a" "" "" "2024-01-02"
      .exn .exn .exn = (none, 1) ∧
    findEventSetlist (fun _ _ => 0) 80 "a" "" "" "2024-01-02"
      (.http 500 []) .exn .exn = (none, 1) ∧
    findEventSetlist (fun _ _ => 0) 80 "a" "" "" "2024-01-02"
      (.http 200 []) .exn .exn = (none, 2) ∧
    findEventSetlist (fun _ _ => 0) 80 "a" "" "" "2024-01-02"
      (.http 200 []) (.http 500 []) .exn = (none, 2) ∧
    findEventSetlist (fun _ _ => 0) 80 "a" "" "" "2024-01-02"
      (.http 200 [⟨"Alice", "02-01-2024", "", "", "", [], none, none⟩]) .exn
      .exn = (none, 2) ∧
    findEventSetlist (fun _ _ => 0) 80 "a" "" "" "2024-01-02"
      (.http 200 [⟨"Alice", "02-01-2024", "", "", "", [], none, none⟩]) .exn
      (.http 500 []) = (none, 2) ∧
    searchSetlists 429 [] = .error () :=
  claim_c8_no_retry (fun _ _ => 0) 80 "a" "" "" "2024-01-02" .exn .exn 500 429
    [] [] [] [⟨"Alice", "02-01-2024", "", "", "", [], none, none⟩]
    ⟨"Alice", "02-01-2024", "", "", "", [], none, none⟩
    (by decide) (by decide) (by decide) (by decide) (by decide)

/-- C10: when the exact-date record of the artist+date search carries
`eventType == "festival"` (case-insensitively) and the follow-up search at
the resolved venue/city succeeds, `find_event_setlist` returns a festival
result even though fewer than 3 distinct performers were found there. -/
theorem claim_c10_eventtype_festival (score : String → String → Nat)
    (thr : Nat) (artist venue city date : String) (b1 b3 : List Entry)
    (he : Entry) (resp2 : NetResult)
    (hfind : b1.find? (fun e => e.eventDate == toSetlistfmDate date) = some he)
    (htype : strLower he.eventType = "festival")
    (hfew : ((b3.map (fun e => e.artistName)).dedup).length < 3) :
    (findEventSetlist score thr artist venue city date (.http 200 b1) resp2
        (.http 200 b3)).1 =
      some (.festival artist (orStr he.venueName venue)
        (orStr he.cityName city) date (festivalLineup b3)) := by
  unfold findEventSetlist
  simp [hfind, htype]

/-- C10 witness: a concrete festival-typed record with a single performer at
the resolved venue. -/
theorem claim_c10_witness :
    (findEventSetlist (fun _ _ => 0) 80 "Fest" "v" "c" "2024-05-01"
        (.http 200 [⟨"Alice", "01-05-2024", "Festival", "Hall", "Town",
          [⟨["A"], none⟩], none, none⟩])
        .exn
        (.http 200 [⟨"Alice", "01-05-2024", "Festival", "Hall", "Town",
          [⟨["A"], none⟩], none, none⟩])).1 =
      some (.festival "Fest" (orStr "Hall" "v") (orStr "Town" "c") "2024-05-01"
        (festivalLineup [⟨"Alice", "01-05-2024", "Festival", "Hall", "Town",
          [⟨["A"], none⟩], none, none⟩])) :=
  claim_c10_eventtype_festival (fun _ _ => 0) 80 "Fest" "v" "c" "2024-05-01"
    [⟨"Alice", "01-05-2024", "Festival", "Hall", "Town", [⟨["A"], none⟩], none, none⟩]
    [⟨"Alice", "01-05-2024", "Festival", "Hall", "Town", [⟨["A"], none⟩], none, none⟩]
    ⟨"Alice", "01-05-2024", "Festival", "Hall", "Town", [⟨["A"], none⟩], none, none⟩
    .exn (by decide) (by decide) (by decide)

/-- C1 counterexample: the step-2 fallback search thresholds on the number
of returned records, not on distinct performer names: three records by the
same performer (1 distinct name, fewer than 3) still produce a festival
result instead of "not found". -/
theorem claim_c1_counterexample :
    (findEventSetlist (fun _ _ => 0) 80 "x" "" "" "2024-05-01" (.http 200 [])
        (.http 200 [⟨"Alice", "01-05-2024", "", "", "", [⟨["A"], none⟩], none, none⟩,
          ⟨"Alice", "01-05-2024", "", "", "", [⟨["B"], none⟩], none, none⟩,
          ⟨"Alice", "01-05-2024", "", "", "", [], none, none⟩]) .exn).1 =
      some (.festival "x" "" "" "2024-05-01" [⟨"Alice", ["A"], none, none⟩]) ∧
    (([⟨"Alice", "01-05-2024", "", "", "", [⟨["A"], none⟩], none, none⟩,
        ⟨"Alice", "01-05-2024", "", "", "", [⟨["B"], none⟩], none, none⟩,
        ⟨"Alice", "01-05-2024", "", "", "", [], none, none⟩] : List Entry).map
      (fun e => e.artistName)).dedup.length = 1 := by
  constructor
  · decide
  · decide

/-- C1 (amended): in both searched branches, 3 or more distinct performer
names imply a festival result — the code thresholds on the record count,
which distinct names bound from below.  Step-2 fallback branch: the result
is a festival exactly when the search returned 3 or more records and "not
found" exactly when it returned fewer, so fewer than 3 distinct names alone
does not force "not found".  Step-3 branch (resolved venue/city/date): 3 or
more distinct performer names among the returned records likewise force a
festival result. -/
theorem claim_c1_festival_threshold (score : String → String → Nat)
    (thr : Nat) (artist venue city date : String) :
    (∀ (b1 b2 : List Entry) (resp3 : NetResult),
      b1.find? (fun e => e.eventDate == toSetlistfmDate date) = none →
      findEventSetlist score thr artist venue city date (.http 200 b1)
          (.http 200 b2) resp3 =
        ((if b2.length ≥ 3 then
            some (.festival artist venue city date (festivalLineup b2))
          else none), 2)) ∧
    (∀ (b1 b3 : List Entry) (he : Entry) (resp2 : NetResult),
      b1.find? (fun e => e.eventDate == toSetlistfmDate date) = some he →
      ((b3.map (fun e => e.artistName)).dedup).length ≥ 3 →
      (findEventSetlist score thr artist venue city date (.http 200 b1) resp2
          (.http 200 b3)).1 =
        some (.festival artist (orStr he.venueName venue)
          (orStr he.cityName city) date (festivalLineup b3))) ∧
    (∀ b : List Entry,
      ((b.map (fun e => e.artistName)).dedup).length ≥ 3 → b.length ≥ 3) := by
  have hbound : ∀ b : List Entry,
      ((b.map (fun e => e.artistName)).dedup).length ≥ 3 → b.length ≥ 3 := by
    intro b h
    calc (3 : Nat) ≤ ((b.map (fun e => e.artistName)).dedup).length := h
    _ ≤ (b.map (fun e => e.artistName)).length :=
        List.Sublist.length_le (List.dedup_sublist _)
    _ = b.length := List.length_map _ _
  refine ⟨?_, ?_, hbound⟩
  · intro b1 b2 resp3 hnone
    unfold findEventSetlist
    simp only [hnone]
    by_cases h3 : b2.length ≥ 3 <;> simp [h3]
  · intro b1 b3 he resp2 hfind hdist
    have hlen : b3.length ≥ 3 := hbound b3 hdist
    unfold findEventSetlist
    simp [hfind, hlen]

/-- C1 witness: the amended statement at concrete inputs — a two-record
step-2 fallback response (below threshold, hence "not found") and a step-3
response with 3 distinct performers (hence festival). -/
theorem claim_c1_witness :
    findEventSetlist (fun _ _ => 0) 80 "x" "v" "c" "2024-05-01" (.http 200 [])
        (.http 200 [⟨"Alice", "01-05-2024", "", "", "", [], none, none⟩,
          ⟨"Bob", "01-05-2024", "", "", "", [], none, none⟩]) .exn =
      ((if ([⟨"Alice", "01-05-2024", "", "", "", [], none, none⟩,
          ⟨"Bob", "01-05-2024", "", "", "", [], none, none⟩] : List Entry).length ≥ 3 then
          some (.festival "x" "v" "c" "2024-05-01"
            (festivalLineup [⟨"Alice", "01-05-2024", "", "", "", [], none, none⟩,
              ⟨"Bob", "01-05-2024", "", "", "", [], none, none⟩]))
        else none), 2) ∧
    (findEventSetlist (fun _ _ => 0) 80 "x" "v" "c" "2024-05-01"
        (.http 200 [⟨"Host", "01-05-2024", "", "Hall", "Town", [], none, none⟩])
        .exn
        (.http 200 [⟨"Alice", "01-05-2024", "", "Hall", "Town", [], none, none⟩,
          ⟨"Bob", "01-05-2024", "", "Hall", "Town", [], none, none⟩,
          ⟨"Carol", "01-05-2024", "", "Hall", "Town", [], none, none⟩])).1 =
      some (.festival "x" (orStr "Hall" "v") (orStr "Town" "c") "2024-05-01"
        (festivalLineup
          [⟨"Alice", "01-05-2024", "", "Hall", "Town", [], none, none⟩,
            ⟨"Bob", "01-05-2024", "", "Hall", "Town", [], none, none⟩,
            ⟨"Carol", "01-05-2024", "", "Hall", "Town", [], none, none⟩])) ∧
    ((([⟨"Alice", "01-05-2024", "", "", "", [], none, none⟩,
        ⟨"Bob", "01-05-2024", "", "", "", [], none, none⟩] : List Entry).map
      (fun e => e.artistName)).dedup.length ≥ 3 →
      ([⟨"Alice", "01-05-2024", "", "", "", [], none, none⟩,
        ⟨"Bob", "01-05-2024", "", "", "", [], none, none⟩] : List Entry).length ≥ 3) := by
  obtain ⟨h1, h2, h3⟩ :=
    claim_c1_festival_threshold (fun _ _ => 0) 80 "x" "v" "c" "2024-05-01"
  exact ⟨h1 [] [⟨"Alice", "01-05-2024", "", "", "", [], none, none⟩,
      ⟨"Bob", "01-05-2024", "", "", "", [], none, none⟩] .exn (by decide),
    h2 [⟨"Host", "01-05-2024", "", "Hall", "Town", [], none, none⟩]
      [⟨"Alice", "01-05-2024", "", "Hall", "Town", [], none, none⟩,
        ⟨"Bob", "01-05-2024", "", "Hall", "Town", [], none, none⟩,
        ⟨"Carol", "01-05-2024", "", "Hall", "Town", [], none, none⟩]
      ⟨"Host", "01-05-2024", "", "Hall", "Town", [], none, none⟩ .exn
      (by decide) (by decide),
    h3 [⟨"Alice", "01-05-2024", "", "", "", [], none, none⟩,
      ⟨"Bob", "01-05-2024", "", "", "", [], none, none⟩]⟩

/-- The festival dedup loop, characterized: keep the first record for each
stripped lower-cased name, dropping blank-named records. -/
theorem dedupByName_eq (l : List BasicEntry) :
    dedupByName l = firstDedupBy (fun b => strLower (strTrim b.name))
      (l.filter (fun b => strTrim b.name ≠ "")) := by
  unfold dedupByName
  rw [dedupKeyLoop_eq]
  simp only [List.nil_append]
  congr 1
  apply List.filter_congr
  intro b _
  by_cases hb : strTrim b.name = "" <;> simp [hb]

/-- C5 counterexample: the festival lineup does not merge songs across
duplicate records of one performer: with two "Alice" records the built entry
keeps only the first record's songs (`["A"]`), while `"B"` — a song of the
duplicate record — is dropped. -/
theorem claim_c5_counterexample :
    festivalLineup [⟨"Alice", "", "", "", "", [⟨["A"], none⟩], none, none⟩,
        ⟨"Alice", "", "", "", "", [⟨["B"], none⟩], none, none⟩,
        ⟨"Bob", "", "", "", "", [], none, none⟩] =
      [⟨"Alice", ["A"], none, none⟩, ⟨"Bob", [], none, none⟩] ∧
    "B" ∈ extractSongs ⟨"Alice", "", "", "", "", [⟨["B"], none⟩], none, none⟩ ∧
    "B" ∉ (["A"] : List String) := by
  refine ⟨?_, ?_, ?_⟩
  · decide
  · decide
  · decide

/-- C5 (amended): festival lineup construction produces exactly one entry
per distinct non-blank performer name (compared stripped and lower-cased),
in first-seen order, each entry being the first record for that name taken
verbatim; songs of later duplicate records are discarded, not merged. -/
theorem claim_c5_lineup_one_per_name (entries : List Entry) :
    festivalLineup entries =
      firstDedupBy (fun b => strLower (strTrim b.name))
        ((entries.map gatherBasicEntry).filter
          (fun b => strTrim b.name ≠ "")) ∧
    ((festivalLineup entries).map (fun b => strLower (strTrim b.name))).Nodup ∧
    (festivalLineup entries).Sublist (entries.map gatherBasicEntry) ∧
    (∀ e ∈ entries, strTrim (gatherBasicEntry e).name ≠ "" →
      ∃ b ∈ festivalLineup entries,
        strLower (strTrim b.name) = strLower (strTrim (gatherBasicEntry e).name)) ∧
    (festivalLineup entries).Pairwise (fun a b =>
      ((entries.map gatherBasicEntry).filter
        (fun x => strTrim x.name ≠ "")).indexOf a <
      ((entries.map gatherBasicEntry).filter
        (fun x => strTrim x.name ≠ "")).indexOf b) := by
  have h0 : festivalLineup entries =
      firstDedupBy (fun b => strLower (strTrim b.name))
        ((entries.map gatherBasicEntry).filter
          (fun b => strTrim b.name ≠ "")) := by
    unfold festivalLineup
    exact dedupByName_eq _
  refine ⟨h0, ?_, ?_, ?_, ?_⟩
  · rw [h0]
    exact nodup_keys_firstDedupBy _ _
  · rw [h0]
    exact (firstDedupBy_sublist _ _).trans (List.filter_sublist _)
  · intro e he hne
    have hmem : gatherBasicEntry e ∈
        (entries.map gatherBasicEntry).filter (fun b => strTrim b.name ≠ "") :=
      List.mem_filter.2 ⟨List.mem_map_of_mem _ he, by simp [hne]⟩
    rcases exists_key_firstDedupBy (fun b => strLower (strTrim b.name)) _ _ hmem
      with ⟨b, hb, hkb⟩
    exact ⟨b, h0 ▸ hb, hkb⟩
  · rw [h0]
    exact pairwise_indexOf_firstDedupBy _ _

/-- C5 witness: the amended characterization at the concrete duplicate-name
input. -/
theorem claim_c5_witness :
    festivalLineup [⟨"Alice", "", "", "", "", [⟨["A"], none⟩], none, none⟩,
        ⟨"Alice", "", "", "", "", [⟨["B"], none⟩], none, none⟩] =
      firstDedupBy (fun b => strLower (strTrim b.name))
        ((([⟨"Alice", "", "", "", "", [⟨["A"], none⟩], none, none⟩,
          ⟨"Alice", "", "", "", "", [⟨["B"], none⟩], none, none⟩] :
            List Entry).map gatherBasicEntry).filter
          (fun b => strTrim b.name ≠ "")) ∧
    ((festivalLineup [⟨"Alice", "", "", "", "", [⟨["A"], none⟩], none, none⟩,
        ⟨"Alice", "", "", "", "", [⟨["B"], none⟩], none, none⟩]).map
      (fun b => strLower (strTrim b.name))).Nodup ∧
    (festivalLineup [⟨"Alice", "", "", "", "", [⟨["A"], none⟩], none, none⟩,
        ⟨"Alice", "", "", "", "", [⟨["B"], none⟩], none, none⟩]).Sublist
      (([⟨"Alice", "", "", "", "", [⟨["A"], none⟩], none, none⟩,
        ⟨"Alice", "", "", "", "", [⟨["B"], none⟩], none, none⟩] :
          List Entry).map gatherBasicEntry) ∧
    (∀ e ∈ ([⟨"Alice", "", "", "", "", [⟨["A"], none⟩], none, none⟩,
        ⟨"Alice", "", "", "", "", [⟨["B"], none⟩], none, none⟩] : List Entry),
      strTrim (gatherBasicEntry e).name ≠ "" →
      ∃ b ∈ festivalLineup [⟨"Alice", "", "", "", "", [⟨["A"], none⟩], none, none⟩,
          ⟨"Alice", "", "", "", "", [⟨["B"], none⟩], none, none⟩],
        strLower (strTrim b.name) = strLower (strTrim (gatherBasicEntry e).name)) ∧
    (festivalLineup [⟨"Alice", "", "", "", "", [⟨["A"], none⟩], none, none⟩,
        ⟨"Alice", "", "", "", "", [⟨["B"], none⟩], none, none⟩]).Pairwise
      (fun a b =>
        ((([⟨"Alice", "", "", "", "", [⟨["A"], none⟩], none, none⟩,
          ⟨"Alice", "", "", "", "", [⟨["B"], none⟩], none, none⟩] :
            List Entry).map gatherBasicEntry).filter
          (fun x => strTrim x.name ≠ "")).indexOf a <
        ((([⟨"Alice", "", "", "", "", [⟨["A"], none⟩], none, none⟩,
          ⟨"Alice", "", "", "", "", [⟨["B"], none⟩], none, none⟩] :
            List Entry).map gatherBasicEntry).filter
          (fun x => strTrim x.name ≠ "")).indexOf b) :=
  claim_c5_lineup_one_per_name
    [⟨"Alice", "", "", "", "", [⟨["A"], none⟩], none, none⟩,
      ⟨"Alice", "", "", "", "", [⟨["B"], none⟩], none, none⟩]

/-- C4 counterexample: a headliner with an empty song list does not get the
top-tracks fallback — the event is skipped outright (result `none`), even
though the fallback for that performer would return tracks. -/
theorem claim_c4_counterexample :
    runNormalEvent
        (fun q _ => if q = "artist:H" then [⟨"spotify:h1", "t", ["H"], 50⟩]
          else [])
        (fun _ _ => some "spotify:x") "H" [] [] = none ∧
    topTracksFallback
        (fun q _ => if q = "artist:H" then [⟨"spotify:h1", "t", ["H"], 50⟩]
          else []) "H" 5 = ["spotify:h1"] := by
  constructor
  · decide
  · decide

/-- C4 (amended): an opener or festival act with an empty song list
contributes exactly the top-tracks fallback uris, hint-less, to the pair
list; such a pair whose uri has the `spotify:` scheme is passed through
unchanged by the resolution step for every resolver (it is never
re-searched); but a headliner with an empty song list causes the whole
event to be skipped instead of receiving the fallback. -/
theorem claim_c4_empty_songs_fallback (search : String → Nat → List Item)
    (resolver : String → String → Option String) (defaultHint : String)
    (bands : List Band) (op : Band) (u : String) (hop : op ∈ bands)
    (hempty : op.songs = [])
    (hu : u ∈ topTracksFallback search (normalizeBand op).name 5)
    (hspot : strStartsWith u "spotify:" = true) :
    bandPairs search (normalizeBand op) =
      (topTracksFallback search (normalizeBand op).name 5).map
        (fun v => (v, (none : Option String))) ∧
    (u, (none : Option String)) ∈ buildOpenerPairs search bands ∧
    (u, (none : Option String)) ∈ buildFestivalPairs search bands ∧
    resolveStep resolver defaultHint (u, none) = some u ∧
    (∀ headliner : String,
      runNormalEvent search resolver headliner [] bands = none) := by
  have hsongs : (normalizeBand op).songs = op.songs := rfl
  have hpairs : bandPairs search (normalizeBand op) =
      (topTracksFallback search (normalizeBand op).name 5).map
        (fun v => (v, (none : Option String))) := by
    unfold bandPairs
    rw [hsongs, hempty]
    simp
  have hmem : (u, (none : Option String)) ∈
      (sortedBy bandKey (bands.map normalizeBand)).flatMap (bandPairs search) := by
    refine List.mem_flatMap.2 ⟨normalizeBand op, ?_, ?_⟩
    · exact (mem_sortedBy _ _ _).2 (List.mem_map_of_mem _ hop)
    · rw [hpairs]
      exact List.mem_map.2 ⟨u, hu, rfl⟩
  refine ⟨hpairs, hmem, hmem, ?_, ?_⟩
  · unfold resolveStep
    simp [hspot]
  · intro headliner
    unfold runNormalEvent
    simp

/-- C4 witness: the amended statement at a concrete opener without songs. -/
theorem claim_c4_witness :
    bandPairs (fun q _ => if q = "artist:Op" then [⟨"spotify:o1", "t", ["Op"], 9⟩]
        else []) (normalizeBand ⟨"Op", [], none, none⟩) =
      (topTracksFallback (fun q _ => if q = "artist:Op" then
          [⟨"spotify:o1", "t", ["Op"], 9⟩] else [])
        (normalizeBand ⟨"Op", [], none, none⟩).name 5).map
        (fun v => (v, (none : Option String))) ∧
    ("spotify:o1", (none : Option String)) ∈ buildOpenerPairs
      (fun q _ => if q = "artist:Op" then [⟨"spotify:o1", "t", ["Op"], 9⟩]
        else []) [⟨"Op", [], none, none⟩] ∧
    ("spotify:o1", (none : Option String)) ∈ buildFestivalPairs
      (fun q _ => if q = "artist:Op" then [⟨"spotify:o1", "t", ["Op"], 9⟩]
        else []) [⟨"Op", [], none, none⟩] ∧
    resolveStep (fun _ _ => none) "H" ("spotify:o1", none) = some "spotify:o1" ∧
    (∀ headliner : String,
      runNormalEvent
        (fun q _ => if q = "artist:Op" then [⟨"spotify:o1", "t", ["Op"], 9⟩]
          else [])
        (fun _ _ => none) headliner [] [⟨"Op", [], none, none⟩] = none) :=
  claim_c4_empty_songs_fallback
    (fun q _ => if q = "artist:Op" then [⟨"spotify:o1", "t", ["Op"], 9⟩] else [])
    (fun _ _ => none) "H" [⟨"Op", [], none, none⟩] ⟨"Op", [], none, none⟩
    "spotify:o1" (by decide) rfl (by decide) (by decide)

/-- C6 counterexample: an entry whose start time parses to `(100, 0, 0)` —
parseable by `_parse_time_or_none` — sorts after the absent-time sentinel
`(99, 99, 99)`, so the entry lacking a parseable start time comes first,
contradicting the claimed "absent after all present" rule. -/
theorem claim_c6_counterexample :
    sortedBy bandKey [⟨"a", [], some "100:00", none⟩, ⟨"b", [], none, none⟩] =
      [⟨"b", [], none, none⟩, ⟨"a", [], some "100:00", none⟩] ∧
    parseTimeOrNone (some "100:00") = some (100, 0, 0) ∧
    parseTimeOrNone (none : Option String) = none := by
  refine ⟨?_, ?_, ?_⟩ <;> decide

/-- C6 (amended): the playback order is the stable ascending sort in the
lexicographic key (sentinel-padded parsed start time, then sentinel-padded
`lastUpdated`, then lower-cased name).  Provided every parseable start time
parses below the sentinel `(99, 99, 99)` (true of valid clock times) and
every present `lastUpdated` is below the string sentinel (true of ISO
timestamps before year 9999), entries lacking a parseable start time come
after all entries having one, and among those, entries lacking
`lastUpdated` come after those having one; the sort is a permutation of the
input and is stable (equal keys keep input order). -/
theorem claim_c6_playback_order (l : List Band) (hst : ∀ b ∈ l, wfStart b)
    (hlu : ∀ b ∈ l, wfUpdated b) :
    List.Perm (sortedBy bandKey l) l ∧
    (sortedBy bandKey l).Pairwise (fun a b => bandKey a ≤ bandKey b) ∧
    (sortedBy bandKey l).Pairwise (fun a b =>
      parseTimeOrNone a.startTime = none → parseTimeOrNone b.startTime = none) ∧
    (sortedBy bandKey l).Pairwise (fun a b =>
      parseTimeOrNone a.startTime = none → parseTimeOrNone b.startTime = none →
      truthyOpt a.lastUpdated = none → truthyOpt b.lastUpdated = none) ∧
    (∀ k, (sortedBy bandKey l).filter (fun z => bandKey z = k) =
      l.filter (fun z => bandKey z = k)) := by
  have hsorted := sortedBy_sorted bandKey l
  refine ⟨sortedBy_perm bandKey l, hsorted, ?_, ?_, fun k =>
    (filter_decide_congr _ _ _ _).trans ((sortedBy_stable bandKey l k).trans
      (filter_decide_congr _ _ _ _))⟩
  · refine hsorted.imp_of_mem ?_
    intro a b ha hb hab hanone
    by_contra hbn
    rcases Option.ne_none_iff_exists'.1 hbn with ⟨t, ht⟩
    have hb_l : b ∈ l := (mem_sortedBy bandKey l b).1 hb
    have hlt : stKey b < stKey a := by
      have hwf := hst b hb_l t ht
      simp only [stKey, ht, hanone]
      exact hwf
    unfold bandKey at hab
    have hab2 := (Prod.Lex.le_iff _ _).1 hab
    dsimp only at hab2
    rcases hab2 with h | ⟨heq, _⟩
    · exact absurd hlt (lt_asymm h)
    · rw [heq] at hlt
      exact absurd hlt (lt_irrefl _)
  · refine hsorted.imp_of_mem ?_
    intro a b ha hb hab hanone hbnone haup
    by_contra hbu
    rcases Option.ne_none_iff_exists'.1 hbu with ⟨u, hu⟩
    have hb_l : b ∈ l := (mem_sortedBy bandKey l b).1 hb
    have hstab : stKey a = stKey b := by
      simp only [stKey, hanone, hbnone]
    have hlulta : luKey b < luKey a := by
      have hwf := hlu b hb_l u hu
      simp only [luKey, hu, haup]
      exact hwf
    unfold bandKey at hab
    have hab2 := (Prod.Lex.le_iff _ _).1 hab
    dsimp only at hab2
    rcases hab2 with h | ⟨_, hrest⟩
    · rw [hstab] at h
      exact absurd h (lt_irrefl _)
    · have hrest2 := (Prod.Lex.le_iff _ _).1 hrest
      dsimp only at hrest2
      rcases hrest2 with h2 | ⟨heq2, _⟩
      · exact absurd hlulta (lt_asymm h2)
      · rw [heq2] at hlulta
        exact absurd hlulta (lt_irrefl _)

/-- C6 witness: the amended ordering at a concrete two-entry lineup with a
valid clock time and a valid ISO timestamp. -/
theorem claim_c6_witness :
    List.Perm (sortedBy bandKey [⟨"a", [], some "12:30", none⟩,
        ⟨"b", [], none, some "2024-01-01T00:00:00Z"⟩])
      [⟨"a", [], some "12:30", none⟩,
        ⟨"b", [], none, some "2024-01-01T00:00:00Z"⟩] ∧
    (sortedBy bandKey [⟨"a", [], some "12:30", none⟩,
        ⟨"b", [], none, some "2024-01-01T00:00:00Z"⟩]).Pairwise
      (fun a b => bandKey a ≤ bandKey b) ∧
    (sortedBy bandKey [⟨"a", [], some "12:30", none⟩,
        ⟨"b", [], none, some "2024-01-01T00:00:00Z"⟩]).Pairwise
      (fun a b => parseTimeOrNone a.startTime = none →
        parseTimeOrNone b.startTime = none) ∧
    (sortedBy bandKey [⟨"a", [], some "12:30", none⟩,
        ⟨"b", [], none, some "2024-01-01T00:00:00Z"⟩]).Pairwise
      (fun a b => parseTimeOrNone a.startTime = none →
        parseTimeOrNone b.startTime = none →
        truthyOpt a.lastUpdated = none → truthyOpt b.lastUpdated = none) ∧
    (∀ k, (sortedBy bandKey [⟨"a", [], some "12:30", none⟩,
        ⟨"b", [], none, some "2024-01-01T00:00:00Z"⟩]).filter
        (fun z => bandKey z = k) =
      ([⟨"a", [], some "12:30", none⟩,
        ⟨"b", [], none, some "2024-01-01T00:00:00Z"⟩] : List Band).filter
        (fun z => bandKey z = k)) :=
  claim_c6_playback_order
    [⟨"a", [], some "12:30", none⟩, ⟨"b", [], none, some "2024-01-01T00:00:00Z"⟩]
    (by
      intro b hb t ht
      simp only [List.mem_cons, List.mem_singleton] at hb
      rcases hb with rfl | rfl | h
      · rw [show parseTimeOrNone (some "12:30") = some (12, 30, 0) from
          by decide] at ht
        cases ht
        decide
      · rw [show parseTimeOrNone (none : Option String) = none from rfl] at ht
        cases ht
      · cases h)
    (by
      intro b hb u hu
      simp only [List.mem_cons, List.mem_singleton] at hb
      rcases hb with rfl | rfl | h
      · rw [show truthyOpt (none : Option String) = none from rfl] at hu
        cases hu
      · rw [show truthyOpt (some "2024-01-01T00:00:00Z") =
            some "2024-01-01T00:00:00Z" from by decide] at hu
        cases hu
        decide
      · cases h)

/-- C2: in the normal-show branch, the chosen headliner is a performer of
maximal similarity score whenever that maximal score reaches 80; otherwise
it is a performer with the longest merged song list. -/
theorem claim_c2_headliner_choice (score : String → String → Nat)
    (artist rv rc date : String) (entries : List Entry) (h : String)
    (hs : List String) (ops : List ArtistAgg) (v c d : String)
    (heq : normalResolve score 80 artist rv rc date entries =
      some (.normal h hs ops v c d)) :
    ∃ s rec, (s, rec) ∈ scoredList score artist entries ∧ rec.name = h ∧
      rec.songs = hs ∧
      ((s ≥ 80 ∧ ∀ q ∈ scoredList score artist entries, q.1 ≤ s) ∨
       ((∀ q ∈ scoredList score artist entries, q.1 < 80) ∧
        ∀ q ∈ scoredList score artist entries,
          q.2.songs.length ≤ rec.songs.length)) := by
  simp only [normalResolve] at heq
  rcases hch : chooseHeadliner 80
      (sortedBy (fun p => OrderDual.toDual p.1)
        (scoredList score artist entries)) with _ | hp
  · rw [hch] at heq
    simp at heq
  · rw [hch] at heq
    simp only [Option.some.injEq, FindResult.normal.injEq] at heq
    obtain ⟨hname, hsongs, hops, hv, hc, hd⟩ := heq
    unfold chooseHeadliner at hch
    rcases hhead : (sortedBy (fun p => OrderDual.toDual p.1)
        (scoredList score artist entries)).head? with _ | top
    · rw [hhead] at hch
      simp at hch
    · rw [hhead] at hch
      dsimp only at hch
      have hmax := sortedBy_head_min (fun p => OrderDual.toDual p.1)
        (scoredList score artist entries) top hhead
      by_cases htop : top.1 ≥ 80
      · rw [if_pos htop] at hch
        have hpe : top = hp := by injection hch
        subst hpe
        refine ⟨top.1, top.2, hmax.1, hname, hsongs, Or.inl ⟨htop, ?_⟩⟩
        intro q hq
        have hmq := hmax.2 q hq
        simpa [OrderDual.toDual_le_toDual] using hmq
      · rw [if_neg htop] at hch
        have hlen := sortedBy_head_min
          (fun p => OrderDual.toDual p.2.songs.length) _ hp hch
        have hpmem : hp ∈ scoredList score artist entries :=
          (mem_sortedBy _ _ _).1 hlen.1
        refine ⟨hp.1, hp.2, hpmem, hname, hsongs, Or.inr ⟨?_, ?_⟩⟩
        · intro q hq
          have h1 := hmax.2 q hq
          have h2 : q.1 ≤ top.1 := by
            simpa [OrderDual.toDual_le_toDual] using h1
          exact lt_of_le_of_lt h2 (lt_of_not_ge htop)
        · intro q hq
          have hq2 : q ∈ sortedBy (fun p => OrderDual.toDual p.1)
              (scoredList score artist entries) := (mem_sortedBy _ _ _).2 hq
          have h1 := hlen.2 q hq2
          simpa [OrderDual.toDual_le_toDual] using h1

/-- C2 witness: a concrete two-performer show where the sheet artist scores
100 against "Alice" and 10 against "Bob". -/
theorem claim_c2_witness :
    ∃ s rec,
      (s, rec) ∈ scoredList (fun _ b => if b = normText "Alice" then 100 else 10)
        "Alice" [⟨"Alice", "", "", "", "", [⟨["A1", "A2"], none⟩], none, none⟩,
          ⟨"Bob", "", "", "", "", [⟨["B1"], none⟩], none, none⟩] ∧
      rec.name = "Alice" ∧ rec.songs = ["A1", "A2"] ∧
      ((s ≥ 80 ∧ ∀ q ∈ scoredList
          (fun _ b => if b = normText "Alice" then 100 else 10) "Alice"
          [⟨"Alice", "", "", "", "", [⟨["A1", "A2"], none⟩], none, none⟩,
            ⟨"Bob", "", "", "", "", [⟨["B1"], none⟩], none, none⟩], q.1 ≤ s) ∨
       ((∀ q ∈ scoredList
            (fun _ b => if b = normText "Alice" then 100 else 10) "Alice"
            [⟨"Alice", "", "", "", "", [⟨["A1", "A2"], none⟩], none, none⟩,
              ⟨"Bob", "", "", "", "", [⟨["B1"], none⟩], none, none⟩],
          q.1 < 80) ∧
        ∀ q ∈ scoredList
            (fun _ b => if b = normText "Alice" then 100 else 10) "Alice"
            [⟨"Alice", "", "", "", "", [⟨["A1", "A2"], none⟩], none, none⟩,
              ⟨"Bob", "", "", "", "", [⟨["B1"], none⟩], none, none⟩],
          q.2.songs.length ≤ rec.songs.length)) :=
  claim_c2_headliner_choice
    (fun _ b => if b = normText "Alice" then 100 else 10) "Alice" "rv" "rc"
    "2024-05-01"
    [⟨"Alice", "", "", "", "", [⟨["A1", "A2"], none⟩], none, none⟩,
      ⟨"Bob", "", "", "", "", [⟨["B1"], none⟩], none, none⟩]
    "Alice" ["A1", "A2"]
    [⟨"Bob", ["B1"], none, none⟩] "rv" "rc" "2024-05-01" (by decide)

/-- The lower-cased performer names of the scored-and-sorted list are
pairwise distinct (inherited from the aggregation map's keys). -/
theorem scoredSorted_names_nodup (score : String → String → Nat)
    (artist : String) (entries : List Entry) :
    ((sortedBy (fun p => OrderDual.toDual p.1)
      (scoredList score artist entries)).map
        (fun p => strLower p.2.name)).Nodup := by
  have h1 := buildArtistsMap_keys_nodup entries
  have h2 : (scoredList score artist entries).map (fun p => strLower p.2.name) =
      (buildArtistsMap entries).map (fun a => strLower a.name) := by
    unfold scoredList
    rw [List.map_map]
    rfl
  have h3 := ((sortedBy_perm (fun p => OrderDual.toDual p.1)
    (scoredList score artist entries)).map (fun p => strLower p.2.name)).nodup_iff
  rw [h3, h2]
  exact h1

/-- A normal result of the normal-show branch never lists the headliner
among the openers, and lists no performer twice. -/
theorem normalResolve_openers (score : String → String → Nat) (thr : Nat)
    (artist rv rc date : String) (entries : List Entry) (h : String)
    (hs : List String) (ops : List ArtistAgg) (v c d : String)
    (heq : normalResolve score thr artist rv rc date entries =
      some (.normal h hs ops v c d)) :
    h ∉ ops.map (fun o => o.name) ∧ (ops.map (fun o => o.name)).Nodup := by
  simp only [normalResolve] at heq
  rcases hch : chooseHeadliner thr
      (sortedBy (fun p => OrderDual.toDual p.1)
        (scoredList score artist entries)) with _ | hp
  · rw [hch] at heq
    simp at heq
  · rw [hch] at heq
    simp only [Option.some.injEq, FindResult.normal.injEq] at heq
    obtain ⟨hname, hsongs, hops, hv, hc, hd⟩ := heq
    subst hname hops
    constructor
    · intro hmem
      rcases List.mem_map.1 hmem with ⟨o, ho, honame⟩
      rcases List.mem_map.1 ho with ⟨p, hpf, hpo⟩
      have hpn : p.2.name ≠ hp.2.name := by
        simpa using (List.mem_filter.1 hpf).2
      rw [hpo] at hpn
      exact hpn honame
    · have hnn := scoredSorted_names_nodup score artist entries
      have hsub : ((sortedBy (fun p => OrderDual.toDual p.1)
            (scoredList score artist entries)).filter
          (fun p => p.2.name ≠ hp.2.name)).Sublist
          (sortedBy (fun p => OrderDual.toDual p.1)
            (scoredList score artist entries)) := List.filter_sublist _
      have hnodup2 : (((sortedBy (fun p => OrderDual.toDual p.1)
          (scoredList score artist entries)).filter
            (fun p => p.2.name ≠ hp.2.name)).map
          (fun p => strLower p.2.name)).Nodup :=
        (hsub.map _).nodup hnn
      have hnodup3 : (((sortedBy (fun p => OrderDual.toDual p.1)
          (scoredList score artist entries)).filter
            (fun p => p.2.name ≠ hp.2.name)).map
          (fun p => p.2.name)).Nodup := by
        have hmm : (((sortedBy (fun p => OrderDual.toDual p.1)
            (scoredList score artist entries)).filter
              (fun p => p.2.name ≠ hp.2.name)).map
            (fun p => p.2.name)).map strLower =
            ((sortedBy (fun p => OrderDual.toDual p.1)
            (scoredList score artist entries)).filter
              (fun p => p.2.name ≠ hp.2.name)).map
            (fun p => strLower p.2.name) := by
          rw [List.map_map]
          rfl
        exact List.Nodup.of_map strLower (hmm ▸ hnodup2)
      have hmm2 : (((sortedBy (fun p => OrderDual.toDual p.1)
          (scoredList score artist entries)).filter
            (fun p => p.2.name ≠ hp.2.name)).map (fun p => p.2)).map
          (fun o => o.name) =
          ((sortedBy (fun p => OrderDual.toDual p.1)
          (scoredList score artist entries)).filter
            (fun p => p.2.name ≠ hp.2.name)).map (fun p => p.2.name) := by
        rw [List.map_map]
        rfl
      rw [hmm2]
      exact hnodup3

/-- C3: every normal (non-festival) result of `find_event_setlist` has its
single headliner absent from the openers, and no performer listed twice
among the openers. -/
theorem claim_c3_unique_headliner (score : String → String → Nat) (thr : Nat)
    (artist venue city date : String) (r1 r2 r3 : NetResult) (h : String)
    (hs : List String) (ops : List ArtistAgg) (v c d : String)
    (heq : (findEventSetlist score thr artist venue city date r1 r2 r3).1 =
      some (.normal h hs ops v c d)) :
    h ∉ ops.map (fun o => o.name) ∧ (ops.map (fun o => o.name)).Nodup := by
  rcases r1 with _ | ⟨s1, b1⟩
  · simp [findEventSetlist] at heq
  · simp only [findEventSetlist] at heq
    by_cases h1 : s1 ≠ 200
    · rw [if_pos h1] at heq
      simp at heq
    · rw [if_neg h1] at heq
      rcases hfind : b1.find? (fun e => e.eventDate == toSetlistfmDate date)
          with _ | he
      · rw [hfind] at heq
        dsimp only at heq
        rcases r2 with _ | ⟨s2, b2⟩
        · simp at heq
        · dsimp only at heq
          by_cases h2 : s2 ≠ 200
          · rw [if_pos h2] at heq
            simp at heq
          · rw [if_neg h2] at heq
            by_cases h3 : b2.length ≥ 3
            · rw [if_pos h3] at heq
              simp at heq
            · rw [if_neg h3] at heq
              simp at heq
      · rw [hfind] at heq
        dsimp only at heq
        rcases r3 with _ | ⟨s3, b3⟩
        · simp at heq
        · dsimp only at heq
          by_cases h2 : s3 ≠ 200
          · rw [if_pos h2] at heq
            simp at heq
          · rw [if_neg h2] at heq
            by_cases h3 : strLower he.eventType = "festival" ∨ b3.length ≥ 3
            · rw [if_pos h3] at heq
              simp at heq
            · rw [if_neg h3] at heq
              simp only [] at heq
              exact normalResolve_openers score thr artist
                (orStr he.venueName venue) (orStr he.cityName city) date b3
                h hs ops v c d heq

/-- C3 witness: the uniqueness properties at a concrete two-performer show. -/
theorem claim_c3_witness :
    "Alice" ∉ ([⟨"Bob", [], none, none⟩] : List ArtistAgg).map
      (fun o => o.name) ∧
    (([⟨"Bob", [], none, none⟩] : List ArtistAgg).map
      (fun o => o.name)).Nodup :=
  claim_c3_unique_headliner (fun _ _ => 100) 80 "Alice" "" "" "2024-05-01"
    (.http 200 [⟨"Alice", "01-05-2024", "", "V", "C",
      [⟨["s1", "s2"], none⟩], none, none⟩])
    .exn
    (.http 200 [⟨"Alice", "01-05-2024", "", "V", "C",
        [⟨["s1", "s2"], none⟩], none, none⟩,
      ⟨"Bob", "01-05-2024", "", "V", "C", [], none, none⟩])
    "Alice" ["s1", "s2"] [⟨"Bob", [], none, none⟩] "V" "C" "2024-05-01"
    (by decide)
